import Mathlib

/-!
Verification of the motion-data processing engine (skeleton utilities)
against its natural-language specification.

The embedding models the TypeScript source faithfully:
JS numbers are modelled as real numbers (`ℝ`, with `Real.sqrt` for
`Math.sqrt`); a JS `Record<string, T>` is modelled as an association list
`List (String × T)` with first-match lookup (`getEntry`) and
replace-or-append write (`setEntry`), which reproduces JS record semantics
(unique keys, insertion order preserved, overwrite keeps a key's slot);
`undefined` lookups are `none`.
-/

set_option maxHeartbeats 1000000

namespace Plm

/-- Lookup in a string-keyed association list, mirroring a JS
`record[key]` read (`none` plays the role of `undefined`). -/
def getEntry {α : Type} : List (String × α) → String → Option α
  | [], _ => none
  | (k, v) :: rest, key => if k = key then some v else getEntry rest key

/-- Write `record[key] = value`: replace the value at the first entry
holding the key, or append a new entry at the end (JS records keep a
key's insertion position on overwrite and append fresh keys). -/
def setEntry {α : Type} : List (String × α) → String → α → List (String × α)
  | [], key, v => [(key, v)]
  | (k, w) :: rest, key, v =>
    if k = key then (k, v) :: rest else (k, w) :: setEntry rest key v

/-- A point in 2D space (source: `Point2D`). -/
structure Point2D where
  x : ℝ
  y : ℝ

/-- One marker's observation in one frame (source: the values of
`Frame.markers`, `Point2D & { confidence, isVisible }`). -/
structure MarkerSample where
  x : ℝ
  y : ℝ
  confidence : ℝ
  isVisible : Bool

/-- A joint connecting two markers (source: `Joint`). -/
structure Joint where
  startMarkerId : String
  endMarkerId : String
  length : ℝ
  name : String

/-- A frame of motion-capture data (source: `Frame`). -/
structure Frame where
  frameNumber : ℤ
  timestamp : ℝ
  markers : List (String × MarkerSample)

instance : Inhabited Frame := ⟨⟨0, 0, []⟩⟩

/-- Euclidean distance between two points (source: `calculateDistance`). -/
noncomputable def calculateDistance (p1 p2 : Point2D) : ℝ :=
  Real.sqrt ((p2.x - p1.x) ^ 2 + (p2.y - p1.y) ^ 2)

/-! ## Length-constraint solver (source: `applyLengthConstraints`) -/

/-- A node of the solver's working graph.  The source also stores a
`neighbors` list per node, but no statement of the function ever reads
it back, so it is not modelled; `originalPosition` is likewise stored
and never read, and is kept for fidelity. -/
structure Node where
  originalPosition : Point2D
  newPosition : Point2D
  weight : ℝ

/-- The node created for a visible marker when the graph is initialized. -/
def mkNode (m : MarkerSample) : Node :=
  { originalPosition := ⟨m.x, m.y⟩
    newPosition := ⟨m.x, m.y⟩
    weight := m.confidence }

/-- Graph initialization: one node per visible marker of the frame, in
iteration order (source: the first `Object.entries(frame.markers).forEach`
of `applyLengthConstraints`). -/
def buildGraph (frame : Frame) : List (String × Node) :=
  frame.markers.foldl
    (fun g p => if p.2.isVisible then setEntry g p.1 (mkNode p.2) else g) []

/-- One joint's constraint step on the working graph (source: the body of
the `joints.forEach` inside the iteration loop of
`applyLengthConstraints`). -/
noncomputable def applyJointConstraint (g : List (String × Node)) (joint : Joint) :
    List (String × Node) :=
  match getEntry g joint.startMarkerId, getEntry g joint.endMarkerId with
  | some startNode, some endNode =>
    if 0 < joint.length then
      let startPos := startNode.newPosition
      let endPos := endNode.newPosition
      let currentDistance := calculateDistance startPos endPos
      if 0 < currentDistance then
        let correction := (joint.length - currentDistance) / currentDistance
        let dx := endPos.x - startPos.x
        let dy := endPos.y - startPos.y
        let totalWeight := startNode.weight + endNode.weight
        let startWeight := endNode.weight / totalWeight
        let endWeight := startNode.weight / totalWeight
        let g1 := setEntry g joint.startMarkerId
          { startNode with newPosition :=
              ⟨startPos.x - dx * correction * startWeight * 0.5,
               startPos.y - dy * correction * startWeight * 0.5⟩ }
        setEntry g1 joint.endMarkerId
          { endNode with newPosition :=
              ⟨endPos.x + dx * correction * endWeight * 0.5,
               endPos.y + dy * correction * endWeight * 0.5⟩ }
      else g
    else g
  | _, _ => g

/-- One full pass over the joint list (source: one turn of the
`for (let iter = 0; iter < iterations; iter++)` loop). -/
noncomputable def solverPass (joints : List Joint) (g : List (String × Node)) :
    List (String × Node) :=
  joints.foldl applyJointConstraint g

/-- Write one graph node's relaxed position back into the marker map
(source: the final `Object.entries(graph).forEach` of
`applyLengthConstraints`). -/
noncomputable def writeBack (ms : List (String × MarkerSample)) (p : String × Node) :
    List (String × MarkerSample) :=
  match getEntry ms p.1 with
  | some m => setEntry ms p.1 { m with x := p.2.newPosition.x, y := p.2.newPosition.y }
  | none => ms

/-- Apply length constraints to the skeleton (source:
`applyLengthConstraints`).  `iterations` passes of constraint solving are
run over the working graph, then relaxed positions are written back. -/
noncomputable def applyLengthConstraints (frame : Frame) (joints : List Joint)
    (iterations : ℕ) : Frame :=
  { frame with markers := List.foldl writeBack frame.markers ((solverPass joints)^[iterations] (buildGraph frame)) }

/-! ## Source fusion (source: `blendMarkerAndMarkerlessData`) -/

/-- One key's blending step (source: the body of the
`Object.entries(markerFrame.markers).forEach` of
`blendMarkerAndMarkerlessData`): the marker map is updated only when both
sources have a visible sample and the combined weight is positive. -/
noncomputable def blendStep (markerlessFrame : Frame) (blendRatio : ℝ)
    (ms : List (String × MarkerSample)) (p : String × MarkerSample) :
    List (String × MarkerSample) :=
  match getEntry markerlessFrame.markers p.1 with
  | some markerlessMarker =>
    if p.2.isVisible && markerlessMarker.isVisible then
      let markerWeight := p.2.confidence * (1 - blendRatio)
      let markerlessWeight := markerlessMarker.confidence * blendRatio
      let totalWeight := markerWeight + markerlessWeight
      if 0 < totalWeight then
        setEntry ms p.1
          { p.2 with
            x := (p.2.x * markerWeight + markerlessMarker.x * markerlessWeight) /
              totalWeight
            y := (p.2.y * markerWeight + markerlessMarker.y * markerlessWeight) /
              totalWeight
            confidence := max p.2.confidence markerlessMarker.confidence }
      else ms
    else ms
  | none => ms

/-- Blend marker-based and markerless data with a confidence-weighted
average (source: `blendMarkerAndMarkerlessData`). -/
noncomputable def blendMarkerAndMarkerlessData (markerFrame markerlessFrame : Frame)
    (blendRatio : ℝ) : Frame :=
  let blended := markerFrame.markers.foldl (blendStep markerlessFrame blendRatio)
    markerFrame.markers
  { markerFrame with markers := blended }

/-! ## Missing-marker estimator (source: `fillMissingMarkers`) -/

/-- The first joint of the list with positive length that touches the given
marker (source: `connectedJoints = joints.filter(...)` followed by
`connectedJoints[0]`).  Note the filter does not exclude the joint
currently being processed. -/
noncomputable def findConnectedJoint (joints : List Joint) (markerId : String) :
    Option Joint :=
  (joints.filter (fun j =>
    decide ((j.startMarkerId = markerId ∨ j.endMarkerId = markerId) ∧
      0 < j.length))).head?

/-- Estimate a missing marker's position from the known endpoint and the
first connected joint's direction (source: the estimation block shared by
both branches of `fillMissingMarkers`; the source also computes a
`perpendicularVector` that is never used, which is not modelled). -/
noncomputable def estimatePosition (frame : Frame) (joints : List Joint)
    (knownId : String) (known : MarkerSample) (jointLength : ℝ) :
    Option Point2D :=
  match findConnectedJoint joints knownId with
  | none => none
  | some connectedJoint =>
    let connectedMarkerId :=
      if connectedJoint.startMarkerId = knownId then connectedJoint.endMarkerId
      else connectedJoint.startMarkerId
    match getEntry frame.markers connectedMarkerId with
    | none => none
    | some connectedMarker =>
      if connectedMarker.isVisible then
        let vx := connectedMarker.x - known.x
        let vy := connectedMarker.y - known.y
        let magnitude := Real.sqrt (vx * vx + vy * vy)
        if 0 < magnitude then
          some ⟨known.x + vx / magnitude * jointLength,
                known.y + vy / magnitude * jointLength⟩
        else none
      else none

/-- Processing of one joint by the estimator (source: the body of the
`joints.forEach` of `fillMissingMarkers`): fill the end marker when it is
absent and the start marker is visible, symmetrically for the start
marker.  The source's `processedMarkers` set is written but never read
and is not modelled. -/
noncomputable def fillMissingStep (frame : Frame) (joints : List Joint)
    (ms : List (String × MarkerSample)) (joint : Joint) :
    List (String × MarkerSample) :=
  match getEntry frame.markers joint.startMarkerId,
        getEntry frame.markers joint.endMarkerId with
  | some startMarker, none =>
    if startMarker.isVisible = true ∧ 0 < joint.length then
      match estimatePosition frame joints joint.startMarkerId startMarker
          joint.length with
      | some p => setEntry ms joint.endMarkerId ⟨p.x, p.y, 0.5, true⟩
      | none => ms
    else ms
  | none, some endMarker =>
    if endMarker.isVisible = true ∧ 0 < joint.length then
      match estimatePosition frame joints joint.endMarkerId endMarker
          joint.length with
      | some p => setEntry ms joint.startMarkerId ⟨p.x, p.y, 0.5, true⟩
      | none => ms
    else ms
  | _, _ => ms

/-- Fill in missing markers based on nearby markers and joint length
constraints (source: `fillMissingMarkers`). -/
noncomputable def fillMissingMarkers (frame : Frame) (joints : List Joint) :
    Frame :=
  { frame with markers :=
      joints.foldl (fillMissingStep frame joints) frame.markers }

/-! ## Temporal smoothing filter (source: `applyTemporalSmoothing`) -/

/-- Accumulated sums over one marker's smoothing window. -/
structure WindowStats where
  sumX : ℝ
  sumY : ℝ
  sumConfidence : ℝ
  count : ℕ

/-- The frame indices of the smoothing window around index `i`, clipped to
the sequence (source: `windowStart`/`windowEnd` and the `for (let j = ...)`
loop bounds of `applyTemporalSmoothing`). -/
def windowIndices (numFrames : ℕ) (windowSize : ℤ) (i : ℤ) : List ℤ :=
  let windowStart := max 0 (i - windowSize / 2)
  let windowEnd := min ((numFrames : ℤ) - 1) (i + windowSize / 2)
  (List.range (windowEnd + 1 - windowStart).toNat).map
    (fun (t : ℕ) => windowStart + (t : ℤ))

/-- Sum the visible samples of one marker over the smoothing window
(source: the accumulation loop of `applyTemporalSmoothing`). -/
noncomputable def windowStats (frames : List Frame) (windowSize : ℤ) (i : ℤ)
    (markerId : String) : WindowStats :=
  (windowIndices frames.length windowSize i).foldl
    (fun acc j =>
      match getEntry (frames.getD j.toNat default).markers markerId with
      | some marker =>
        if marker.isVisible then
          ⟨acc.sumX + marker.x * marker.confidence,
           acc.sumY + marker.y * marker.confidence,
           acc.sumConfidence + marker.confidence,
           acc.count + 1⟩
        else acc
      | none => acc)
    ⟨0, 0, 0, 0⟩

/-- Smooth one frame of the sequence (source: the body of the outer
`for (let i = 0; ...)` loop of `applyTemporalSmoothing`): each marker key
of frame `i` is replaced by the confidence-weighted window mean when the
window holds data with positive summed confidence. -/
noncomputable def smoothFrame (frames : List Frame) (windowSize : ℤ) (i : ℕ) :
    Frame :=
  let base := frames.getD i default
  let smoothed := base.markers.foldl
    (fun ms p =>
      let stats := windowStats frames windowSize (i : ℤ) p.1
      match getEntry base.markers p.1 with
      | some orig =>
        if 0 < stats.count ∧ 0 < stats.sumConfidence then
          setEntry ms p.1
            { x := stats.sumX / stats.sumConfidence
              y := stats.sumY / stats.sumConfidence
              confidence := orig.confidence
              isVisible := orig.isVisible }
        else ms
      | none => ms)
    base.markers
  { base with markers := smoothed }

/-- Apply a temporal smoothing filter to the skeleton motion (source:
`applyTemporalSmoothing`).  The window size is modelled as an integer,
which covers every structural input the claims quantify over. -/
noncomputable def applyTemporalSmoothing (frames : List Frame) (windowSize : ℤ) :
    List Frame :=
  if frames.length ≤ 1 ∨ windowSize ≤ 1 then frames
  else (List.range frames.length).map (smoothFrame frames windowSize)

/-! ## Temporal synchronizer (source: `synchronizeData`) -/

/-- Mean Euclidean displacement between two adjacent frames over the
marker keys visible in both (source: the body of `calculateMovement`'s
`for` loop in `synchronizeData`). -/
noncomputable def frameMovement (prev cur : Frame) : ℝ :=
  let acc := cur.markers.foldl
    (fun (acc : ℝ × ℕ) p =>
      match getEntry cur.markers p.1, getEntry prev.markers p.1 with
      | some currentMarker, some prevMarker =>
        if currentMarker.isVisible && prevMarker.isVisible then
          (acc.1 + calculateDistance ⟨currentMarker.x, currentMarker.y⟩
            ⟨prevMarker.x, prevMarker.y⟩, acc.2 + 1)
        else acc
      | _, _ => acc)
    (0, 0)
  if 0 < acc.2 then acc.1 / (acc.2 : ℝ) else 0

/-- The motion-magnitude series of a sequence (source: `calculateMovement`
in `synchronizeData`). -/
noncomputable def calculateMovement (frames : List Frame) : List ℝ :=
  (frames.zip frames.tail).map (fun p => frameMovement p.1 p.2)

/-- Read a movement series at an integer index; only used under the
in-range guards of the correlation loop. -/
def getMovement (l : List ℝ) (i : ℤ) : ℝ :=
  l.getD i.toNat 0

/-- Correlation sum and sample count at one offset (source: the inner
`for (let i = 0; i < syncWindowSize; i++)` loop of `synchronizeData`). -/
noncomputable def correlationAt (mA mB : List ℝ) (syncWindowSize : ℤ)
    (offset : ℤ) : ℝ × ℕ :=
  (List.range syncWindowSize.toNat).foldl
    (fun acc t =>
      let markerIdx : ℤ := (t : ℤ)
      let markerlessIdx : ℤ := (t : ℤ) + offset
      if 0 ≤ markerIdx ∧ markerIdx < (mA.length : ℤ) ∧
         0 ≤ markerlessIdx ∧ markerlessIdx < (mB.length : ℤ) then
        (acc.1 + getMovement mA markerIdx * getMovement mB markerlessIdx,
         acc.2 + 1)
      else acc)
    (0, 0)

/-- One step of the best-offset search (source: the body of the
`for (let offset = -maxOffset; ...)` loop of `synchronizeData`).  The
state is `(bestOffset, bestCorrelation)`; `none` models the initial
`-Infinity`, which every computed correlation beats. -/
noncomputable def bestStep (mA mB : List ℝ) (syncWindowSize : ℤ)
    (state : ℤ × Option ℝ) (offset : ℤ) : ℤ × Option ℝ :=
  let c := correlationAt mA mB syncWindowSize offset
  if 0 < c.2 then
    let correlation := c.1 / (c.2 : ℝ)
    match state.2 with
    | none => (offset, some correlation)
    | some best =>
      if best < correlation then (offset, some correlation) else state
  else state

/-- The offsets scanned by the search, from `-maxOffset` to `+maxOffset`. -/
def offsetList (maxOffset : ℕ) : List ℤ :=
  (List.range (2 * maxOffset + 1)).map (fun (j : ℕ) => (j : ℤ) - (maxOffset : ℤ))

/-- The offset selected by the sliding-window search (source: the
`bestOffset`/`bestCorrelation` scan of `synchronizeData`). -/
noncomputable def bestOffset (mA mB : List ℝ) (syncWindowSize : ℤ)
    (maxOffset : ℕ) : ℤ :=
  ((offsetList maxOffset).foldl (bestStep mA mB syncWindowSize)
    (0, none)).1

/-- Synchronize marker-based and markerless sequences by time alignment
(source: `synchronizeData`). -/
noncomputable def synchronizeData (markerFrames markerlessFrames : List Frame)
    (syncWindowSize : ℤ) : List Frame × List Frame :=
  if (markerFrames.length : ℤ) < syncWindowSize ∨
     (markerlessFrames.length : ℤ) < syncWindowSize then
    (markerFrames, markerlessFrames)
  else
    let markerMovements := calculateMovement markerFrames
    let markerlessMovements := calculateMovement markerlessFrames
    let maxOffset := min (markerFrames.length / 4) (markerlessFrames.length / 4)
    let best := bestOffset markerMovements markerlessMovements syncWindowSize
      maxOffset
    if 0 < best then (markerFrames.drop best.toNat, markerlessFrames)
    else if best < 0 then (markerFrames, markerlessFrames.drop (-best).toNat)
    else (markerFrames, markerlessFrames)

/-! ## Concrete test data used by witnesses and counterexamples -/

/-- The frame of the solver scenario of the spec: A at the origin and B at
(3,4), both fully confident and visible. -/
def frameC5 : Frame := ⟨0, 0, [("A", ⟨0, 0, 1, true⟩), ("B", ⟨3, 4, 1, true⟩)]⟩

/-- The joint A-B with target length 10 of the solver scenario. -/
def jointC5 : Joint := ⟨"A", "B", 10, "A-B"⟩

/-- A frame whose two visible markers both carry confidence 0. -/
def frameC4 : Frame := ⟨0, 0, [("A", ⟨0, 0, 0, true⟩), ("B", ⟨1, 0, 0, true⟩)]⟩

/-- The joint A-B with target length 2 used with `frameC4`. -/
def jointC4 : Joint := ⟨"A", "B", 2, "A-B"⟩

/-- A joint A-B with target length 2. -/
def jointAB : Joint := ⟨"A", "B", 2, "A-B"⟩

/-- A joint A-C with target length 1. -/
def jointAC : Joint := ⟨"A", "C", 1, "A-C"⟩

/-- The sample of the present-but-invisible marker B. -/
def sampleBInvisible : MarkerSample := ⟨5, 5, 0.8, false⟩

/-- A frame where A and C are visible and B is present but invisible. -/
def frameBInvisible : Frame :=
  ⟨0, 0, [("A", ⟨0, 0, 1, true⟩), ("B", sampleBInvisible), ("C", ⟨1, 0, 1, true⟩)]⟩

/-- A frame where A and C are visible and B is absent. -/
def frameBAbsent : Frame :=
  ⟨0, 0, [("A", ⟨0, 0, 1, true⟩), ("C", ⟨1, 0, 1, true⟩)]⟩

/-- A one-marker frame with marker A at (x, 0), confidence 1, visible. -/
def frameX (x : ℝ) : Frame := ⟨0, 0, [("A", ⟨x, 0, 1, true⟩)]⟩

/-- A four-frame sequence whose single marker moves by 1 every frame, so
its motion-magnitude series is the constant [1, 1, 1]. -/
def seqConstantMotion : List Frame := [frameX 0, frameX 1, frameX 2, frameX 3]

/-- A four-frame sequence with a single burst of motion in the middle, so
its motion-magnitude series is [0, 10, 0]. -/
def seqBurstMotion : List Frame := [frameX 0, frameX 0, frameX 10, frameX 10]

/-- A generic one-marker frame. -/
def frameSimple : Frame := ⟨0, 0, [("A", ⟨1, 2, 1, true⟩)]⟩

/-- A second generic one-marker frame with a different position. -/
def frameSimple2 : Frame := ⟨1, 1, [("A", ⟨4, 6, 1, true⟩)]⟩

/-- A one-marker frame whose visible sample has confidence 0. -/
def frameZeroConf : Frame := ⟨0, 0, [("A", ⟨1, 2, 0, true⟩)]⟩

/-- A two-marker frame used as the primary fusion source. -/
def framePrimary : Frame := ⟨0, 0, [("A", ⟨1, 2, 0.5, true⟩)]⟩

/-- A one-marker frame used as the secondary fusion source. -/
def frameSecondary : Frame := ⟨0, 0, [("A", ⟨9, 9, 0.9, true⟩)]⟩

/-! ## Association-list lemmas -/

theorem getEntry_cons {α : Type} (p : String × α) (l : List (String × α))
    (k : String) :
    getEntry (p :: l) k = if p.1 = k then some p.2 else getEntry l k := by
  cases p
  rfl

theorem setEntry_cons {α : Type} (p : String × α) (l : List (String × α))
    (k : String) (v : α) :
    setEntry (p :: l) k v =
      if p.1 = k then (p.1, v) :: l else p :: setEntry l k v := by
  cases p
  rfl

theorem getEntry_setEntry_ne {α : Type} (l : List (String × α)) (k km : String)
    (v : α) (h : km ≠ k) : getEntry (setEntry l km v) k = getEntry l k := by
  induction l with
  | nil => simp [setEntry, getEntry, h]
  | cons p rest ih =>
    rw [setEntry_cons]
    by_cases hp : p.1 = km
    · rw [if_pos hp, getEntry_cons, getEntry_cons]
      have : p.1 ≠ k := hp ▸ h
      rw [if_neg this, if_neg this]
    · rw [if_neg hp, getEntry_cons, getEntry_cons]
      by_cases hk : p.1 = k
      · rw [if_pos hk, if_pos hk]
      · rw [if_neg hk, if_neg hk, ih]

theorem setEntry_eq_self {α : Type} {l : List (String × α)} {k : String}
    {v : α} (h : getEntry l k = some v) : setEntry l k v = l := by
  induction l with
  | nil => simp [getEntry] at h
  | cons p rest ih =>
    rw [getEntry_cons] at h
    rw [setEntry_cons]
    by_cases hp : p.1 = k
    · rw [if_pos hp] at h
      rw [if_pos hp]
      obtain ⟨rfl⟩ := Option.some.inj h
      cases p
      rfl
    · rw [if_neg hp] at h
      rw [if_neg hp, ih h]

theorem getEntry_mem {α : Type} {l : List (String × α)} {k : String} {v : α}
    (h : getEntry l k = some v) : (k, v) ∈ l := by
  induction l with
  | nil => simp [getEntry] at h
  | cons p rest ih =>
    rw [getEntry_cons] at h
    by_cases hp : p.1 = k
    · rw [if_pos hp] at h
      obtain ⟨rfl⟩ := Option.some.inj h
      cases p
      subst hp
      exact List.mem_cons_self _ _
    · rw [if_neg hp] at h
      exact List.mem_cons_of_mem _ (ih h)

theorem getEntry_eq_some_of_mem_nodup {α : Type} {l : List (String × α)}
    (hnd : (l.map Prod.fst).Nodup) {k : String} {v : α} (h : (k, v) ∈ l) :
    getEntry l k = some v := by
  induction l with
  | nil => simp at h
  | cons p rest ih =>
    rw [List.map_cons, List.nodup_cons] at hnd
    rw [getEntry_cons]
    rcases List.mem_cons.mp h with heq | hmem
    · rw [← heq]
      simp
    · have hk : k ∈ rest.map Prod.fst := List.mem_map.mpr ⟨(k, v), hmem, rfl⟩
      have hne : p.1 ≠ k := fun hc => hnd.1 (hc ▸ hk)
      rw [if_neg hne]
      exact ih hnd.2 hmem

theorem setEntry_of_getEntry_none {α : Type} {l : List (String × α)}
    {k : String} (h : getEntry l k = none) (v : α) :
    setEntry l k v = l ++ [(k, v)] := by
  induction l with
  | nil => rfl
  | cons p rest ih =>
    rw [getEntry_cons] at h
    by_cases hp : p.1 = k
    · rw [if_pos hp] at h
      exact absurd h (by simp)
    · rw [if_neg hp] at h
      rw [setEntry_cons, if_neg hp, ih h, List.cons_append]

theorem getEntry_append_right {α : Type} {l1 : List (String × α)}
    (l2 : List (String × α)) {k : String} (h : getEntry l1 k = none) :
    getEntry (l1 ++ l2) k = getEntry l2 k := by
  induction l1 with
  | nil => rfl
  | cons p rest ih =>
    rw [getEntry_cons] at h
    by_cases hp : p.1 = k
    · rw [if_pos hp] at h
      exact absurd h (by simp)
    · rw [if_neg hp] at h
      rw [List.cons_append, getEntry_cons, if_neg hp, ih h]

theorem foldl_eq_init {α β : Type} (f : α → β → α) (l : List β) (init : α)
    (h : ∀ a b, b ∈ l → f a b = a) : l.foldl f init = init := by
  induction l generalizing init with
  | nil => rfl
  | cons b rest ih =>
    rw [List.foldl_cons, h init b (List.mem_cons_self b rest)]
    exact ih init fun a c hc => h a c (List.mem_cons_of_mem _ hc)

theorem foldl_getEntry_invariant {α β : Type}
    (f : List (String × α) → β → List (String × α)) (l : List β) (k : String)
    (h : ∀ ms b, b ∈ l → getEntry (f ms b) k = getEntry ms k) :
    ∀ ms, getEntry (l.foldl f ms) k = getEntry ms k := by
  induction l with
  | nil => intro ms; rfl
  | cons b rest ih =>
    intro ms
    rw [List.foldl_cons,
      ih (fun ms c hc => h ms c (List.mem_cons_of_mem _ hc)) (f ms b),
      h ms b (List.mem_cons_self b rest)]

/-! ## The solver at zero iterations -/

theorem buildGraph_aux (l : List (String × MarkerSample)) :
    ∀ (g : List (String × Node)), (∀ p ∈ l, getEntry g p.1 = none) →
    (l.map Prod.fst).Nodup →
    l.foldl (fun g p => if p.2.isVisible then setEntry g p.1 (mkNode p.2) else g)
        g =
      g ++ (l.filter (fun p => p.2.isVisible)).map (fun p => (p.1, mkNode p.2)) := by
  induction l with
  | nil => intro g _ _; simp
  | cons p rest ih =>
    intro g hfresh hnd
    rw [List.map_cons, List.nodup_cons] at hnd
    rw [List.foldl_cons]
    by_cases hv : p.2.isVisible = true
    · have hf : List.filter (fun q => q.2.isVisible) (p :: rest) =
          p :: List.filter (fun q => q.2.isVisible) rest := by
        simp [List.filter_cons, hv]
      rw [if_pos hv, hf, List.map_cons]
      have hg : getEntry g p.1 = none := hfresh p (List.mem_cons_self p rest)
      rw [setEntry_of_getEntry_none hg]
      rw [ih (g ++ [(p.1, mkNode p.2)]) ?_ hnd.2]
      · simp
      · intro q hq
        have hqg : getEntry g q.1 = none :=
          hfresh q (List.mem_cons_of_mem _ hq)
        rw [getEntry_append_right _ hqg, getEntry_cons]
        have hne : p.1 ≠ q.1 := fun hc =>
          hnd.1 (hc ▸ List.mem_map.mpr ⟨q, hq, rfl⟩)
        rw [if_neg hne]
        rfl
    · have hf : List.filter (fun q => q.2.isVisible) (p :: rest) =
          List.filter (fun q => q.2.isVisible) rest := by
        simp [List.filter_cons, Bool.eq_false_iff.mpr hv]
      rw [if_neg hv, hf]
      exact ih g (fun q hq => hfresh q (List.mem_cons_of_mem _ hq)) hnd.2

theorem buildGraph_eq (frame : Frame)
    (hnd : (frame.markers.map Prod.fst).Nodup) :
    buildGraph frame =
      (frame.markers.filter (fun p => p.2.isVisible)).map
        (fun p => (p.1, mkNode p.2)) := by
  have h := buildGraph_aux frame.markers [] (fun p _ => rfl) hnd
  simpa [buildGraph] using h

theorem writeBack_fold_id (gl : List (String × Node)) :
    ∀ (ms : List (String × MarkerSample)),
    (∀ q ∈ gl, ∃ m, getEntry ms q.1 = some m ∧
      q.2.newPosition.x = m.x ∧ q.2.newPosition.y = m.y) →
    gl.foldl writeBack ms = ms := by
  induction gl with
  | nil => intro ms _; rfl
  | cons q rest ih =>
    intro ms h
    obtain ⟨m, hm, hx, hy⟩ := h q (List.mem_cons_self q rest)
    have hw : writeBack ms q = ms := by
      unfold writeBack
      rw [hm, hx, hy]
      exact setEntry_eq_self hm
    rw [List.foldl_cons, hw]
    exact ih ms fun q2 hq2 => h q2 (List.mem_cons_of_mem _ hq2)

/-- C7: for every frame (with unique marker keys, as JS records guarantee)
and every topology, the solver at zero iterations is the identity: every
marker keeps its exact position, confidence and visibility, and the marker
key set, frame number and timestamp are unchanged. -/
theorem solve_zero_iterations_eq (frame : Frame) (joints : List Joint)
    (hnd : (frame.markers.map Prod.fst).Nodup) :
    applyLengthConstraints frame joints 0 = frame := by
  have hbg := buildGraph_eq frame hnd
  have hfold : (buildGraph frame).foldl writeBack frame.markers =
      frame.markers := by
    apply writeBack_fold_id
    intro q hq
    rw [hbg] at hq
    obtain ⟨p, hp, rfl⟩ := List.mem_map.mp hq
    exact ⟨p.2, getEntry_eq_some_of_mem_nodup hnd (List.mem_of_mem_filter hp),
      rfl, rfl⟩
  unfold applyLengthConstraints
  rw [Function.iterate_zero_apply]
  rw [show List.foldl writeBack frame.markers (buildGraph frame) =
    frame.markers from hfold]

/-- Witness for C7 at a concrete frame and topology. -/
theorem solve_zero_iterations_eq_witness :
    applyLengthConstraints frameSimple [jointAB] 0 = frameSimple :=
  solve_zero_iterations_eq frameSimple [jointAB] (by simp [frameSimple])

/-! ## Missing-marker estimator: key preservation and anchor selection -/

theorem fillMissingStep_getEntry_eq (frame : Frame) (joints : List Joint)
    (ms : List (String × MarkerSample)) (j : Joint) (k : String)
    (h : getEntry frame.markers k ≠ none) :
    getEntry (fillMissingStep frame joints ms j) k = getEntry ms k := by
  rcases hst : getEntry frame.markers j.startMarkerId with _ | st <;>
    rcases hen : getEntry frame.markers j.endMarkerId with _ | en <;>
    simp only [fillMissingStep, hst, hen]
  · split
    · rcases hep : estimatePosition frame joints j.endMarkerId en j.length with
        _ | p <;> simp only [hep]
      exact getEntry_setEntry_ne ms k j.startMarkerId _
        (fun hc => h (hc ▸ hst))
    · rfl
  · split
    · rcases hep : estimatePosition frame joints j.startMarkerId st j.length with
        _ | p <;> simp only [hep]
      exact getEntry_setEntry_ne ms k j.endMarkerId _
        (fun hc => h (hc ▸ hen))
    · rfl

/-- C2 (amended): `fillMissingMarkers` synthesizes a sample only for an
endpoint that is entirely absent from the frame's marker map.  Every key
present in the input frame — visible or not, in particular a
present-but-invisible endpoint — passes through with its sample exactly
unchanged, so a present-but-invisible endpoint is never filled, unlike an
absent one. -/
theorem fillMissing_present_unchanged (frame : Frame) (joints : List Joint)
    (k : String) (s : MarkerSample) (h : getEntry frame.markers k = some s) :
    getEntry (fillMissingMarkers frame joints).markers k = some s := by
  show getEntry (List.foldl (fillMissingStep frame joints) frame.markers joints)
    k = some s
  rw [foldl_getEntry_invariant (fillMissingStep frame joints) joints k
    (fun ms j _ => fillMissingStep_getEntry_eq frame joints ms j k
      (by simp [h])) frame.markers]
  exact h

/-- Witness for the amended C2 at a concrete frame: the
present-but-invisible marker B passes through unchanged. -/
theorem fillMissing_present_unchanged_witness :
    getEntry (fillMissingMarkers frameBInvisible [jointAC, jointAB]).markers
      "B" = some sampleBInvisible :=
  fillMissing_present_unchanged frameBInvisible [jointAC, jointAB] "B"
    sampleBInvisible (by simp [frameBInvisible, getEntry])

/-- C2 (counterexample): with joints [A-C, A-B], marker A visible at the
origin, C visible at (1,0): when B is absent it is synthesized at (2,0)
with confidence 0.5 and visibility true; but when B is present with
`isVisible = false` it is NOT synthesized — its invisible sample passes
through unchanged.  The claim that a present-but-invisible endpoint is
treated exactly as an absent one is therefore false. -/
theorem fillMissing_invisible_not_as_absent :
    getEntry (fillMissingMarkers frameBAbsent [jointAC, jointAB]).markers "B" =
      some ⟨2, 0, 0.5, true⟩ ∧
    getEntry (fillMissingMarkers frameBInvisible [jointAC, jointAB]).markers
      "B" = some sampleBInvisible := by
  constructor
  · norm_num +decide [fillMissingMarkers, fillMissingStep, estimatePosition,
      findConnectedJoint, frameBAbsent, jointAC, jointAB, getEntry, setEntry,
      List.filter_cons, Real.sqrt_one]
  · norm_num +decide [fillMissingMarkers, fillMissingStep, estimatePosition,
      findConnectedJoint, frameBInvisible, sampleBInvisible, jointAC, jointAB,
      getEntry, setEntry, List.filter_cons, Real.sqrt_one]

/-- The joint being processed always qualifies as its own anchor
candidate: when it heads the joint list, the connected-joint search
returns the joint itself. -/
theorem findConnectedJoint_self_head (rest : List Joint) (j : Joint)
    (hL : 0 < j.length) :
    findConnectedJoint (j :: rest) j.startMarkerId = some j := by
  unfold findConnectedJoint
  rw [List.filter_cons]
  simp [hL]

/-- C3 (amended): the anchor joint used by the estimator is the first
joint in topology order with positive length that touches the visible
endpoint, with the joint J being processed itself among the candidates
(the filter does not exclude it).  When J heads the topology it is
selected as its own anchor, so the anchor marker is J's own missing
endpoint, which is absent from the frame, and the estimation aborts. -/
theorem fillMissing_self_anchor (frame : Frame) (rest : List Joint) (j : Joint)
    (sa : MarkerSample) (hL : 0 < j.length)
    (he : getEntry frame.markers j.endMarkerId = none) :
    findConnectedJoint (j :: rest) j.startMarkerId = some j ∧
    estimatePosition frame (j :: rest) j.startMarkerId sa j.length = none := by
  have h1 := findConnectedJoint_self_head rest j hL
  refine ⟨h1, ?_⟩
  unfold estimatePosition
  rw [h1]
  simp [he]

/-- Witness for the amended C3 at a concrete frame and topology. -/
theorem fillMissing_self_anchor_witness :
    findConnectedJoint [jointAB, jointAC] jointAB.startMarkerId =
      some jointAB ∧
    estimatePosition frameBAbsent [jointAB, jointAC] jointAB.startMarkerId
      ⟨0, 0, 1, true⟩ jointAB.length = none :=
  fillMissing_self_anchor frameBAbsent [jointAC] jointAB ⟨0, 0, 1, true⟩
    (by norm_num [jointAB]) (by simp [frameBAbsent, jointAB, getEntry])

/-- C3 (counterexample): with topology [A-B, A-C] (the joint A-B first), A
visible at the origin, C visible at (1,0) and B absent, the code selects
A-B itself as the anchor for its own missing endpoint B, so B is never
synthesized — while with the other topology order [A-C, A-B] the anchor
is A-C and B is synthesized at (2,0).  The claim that the joint being
processed is never selected as its own anchor is therefore false. -/
theorem fillMissing_self_anchor_counterexample :
    getEntry (fillMissingMarkers frameBAbsent [jointAB, jointAC]).markers "B" =
      none ∧
    getEntry (fillMissingMarkers frameBAbsent [jointAC, jointAB]).markers "B" =
      some ⟨2, 0, 0.5, true⟩ := by
  constructor
  · norm_num +decide [fillMissingMarkers, fillMissingStep, estimatePosition,
      findConnectedJoint, frameBAbsent, jointAC, jointAB, getEntry, setEntry,
      List.filter_cons, Real.sqrt_one]
  · norm_num +decide [fillMissingMarkers, fillMissingStep, estimatePosition,
      findConnectedJoint, frameBAbsent, jointAC, jointAB, getEntry, setEntry,
      List.filter_cons, Real.sqrt_one]

/-! ## The solver on a single joint between two markers -/

theorem sqrt_val {x c : ℝ} (h : x = c ^ 2) (hc : 0 ≤ c) : Real.sqrt x = c := by
  rw [h, Real.sqrt_sq hc]

theorem buildGraph_two (num : ℤ) (ts : ℝ) (a b : String) (sa sb : MarkerSample)
    (hab : a ≠ b) (hva : sa.isVisible = true) (hvb : sb.isVisible = true) :
    buildGraph ⟨num, ts, [(a, sa), (b, sb)]⟩ =
      [(a, mkNode sa), (b, mkNode sb)] := by
  simp [buildGraph, setEntry, hva, hvb, hab]

theorem applyJointConstraint_two (a b : String) (na nb : Node) (L : ℝ)
    (nm : String) (hab : a ≠ b) (hL : 0 < L)
    (hd : 0 < calculateDistance na.newPosition nb.newPosition) :
    applyJointConstraint [(a, na), (b, nb)] ⟨a, b, L, nm⟩ =
      [(a, { na with newPosition :=
          ⟨na.newPosition.x - (nb.newPosition.x - na.newPosition.x) *
              ((L - calculateDistance na.newPosition nb.newPosition) /
                calculateDistance na.newPosition nb.newPosition) *
              (nb.weight / (na.weight + nb.weight)) * 0.5,
           na.newPosition.y - (nb.newPosition.y - na.newPosition.y) *
              ((L - calculateDistance na.newPosition nb.newPosition) /
                calculateDistance na.newPosition nb.newPosition) *
              (nb.weight / (na.weight + nb.weight)) * 0.5⟩ }),
       (b, { nb with newPosition :=
          ⟨nb.newPosition.x + (nb.newPosition.x - na.newPosition.x) *
              ((L - calculateDistance na.newPosition nb.newPosition) /
                calculateDistance na.newPosition nb.newPosition) *
              (na.weight / (na.weight + nb.weight)) * 0.5,
           nb.newPosition.y + (nb.newPosition.y - na.newPosition.y) *
              ((L - calculateDistance na.newPosition nb.newPosition) /
                calculateDistance na.newPosition nb.newPosition) *
              (na.weight / (na.weight + nb.weight)) * 0.5⟩ })] := by
  simp only [applyJointConstraint, getEntry, setEntry, if_pos, hab,
    if_neg (Ne.symm hab)]
  simp [hab, hL, hd, setEntry]

theorem writeBack_two (a b : String) (sa sb : MarkerSample) (na nb : Node)
    (hab : a ≠ b) :
    List.foldl writeBack [(a, sa), (b, sb)] [(a, na), (b, nb)] =
      [(a, { sa with x := na.newPosition.x, y := na.newPosition.y }),
       (b, { sb with x := nb.newPosition.x, y := nb.newPosition.y })] := by
  simp [writeBack, getEntry, setEntry, hab]

theorem calculateDistance_corrected (A B : Point2D) (c s e : ℝ) :
    calculateDistance
      ⟨A.x - (B.x - A.x) * c * s * 0.5, A.y - (B.y - A.y) * c * s * 0.5⟩
      ⟨B.x + (B.x - A.x) * c * e * 0.5, B.y + (B.y - A.y) * c * e * 0.5⟩ =
    |1 + c * s * 0.5 + c * e * 0.5| * calculateDistance A B := by
  unfold calculateDistance
  rw [show B.x + (B.x - A.x) * c * e * 0.5 -
      (A.x - (B.x - A.x) * c * s * 0.5) =
      (B.x - A.x) * (1 + c * s * 0.5 + c * e * 0.5) from by ring,
    show B.y + (B.y - A.y) * c * e * 0.5 -
      (A.y - (B.y - A.y) * c * s * 0.5) =
      (B.y - A.y) * (1 + c * s * 0.5 + c * e * 0.5) from by ring,
    mul_pow, mul_pow, ← add_mul,
    Real.sqrt_mul (by positivity), Real.sqrt_sq_eq_abs, mul_comm]

/-- C4: the failing input for the zero-confidence safety claim.  At the
frame whose visible markers A = (0,0) and B = (1,0) both carry confidence
0 and the joint A-B of length 2, the solver's working graph holds both
endpoints, both guards the code actually checks (positive joint length
and positive current distance) pass, yet the weight sum is 0 — so the
correction step IS reached with `totalWeight = 0` and computes the weight
shares as `0 / 0` (`NaN` in JavaScript), contradicting the claimed
skip/no-op policy. -/
theorem solver_zero_weight_division_reached :
    getEntry (buildGraph frameC4) "A" = some (mkNode ⟨0, 0, 0, true⟩) ∧
    getEntry (buildGraph frameC4) "B" = some (mkNode ⟨1, 0, 0, true⟩) ∧
    (0 : ℝ) < jointC4.length ∧
    0 < calculateDistance (mkNode ⟨0, 0, 0, true⟩).newPosition
      (mkNode ⟨1, 0, 0, true⟩).newPosition ∧
    (mkNode ⟨0, 0, 0, true⟩).weight + (mkNode ⟨1, 0, 0, true⟩).weight = 0 := by
  refine ⟨?_, ?_, ?_, ?_, ?_⟩
  · simp +decide [buildGraph, setEntry, getEntry, frameC4]
  · simp +decide [buildGraph, setEntry, getEntry, frameC4]
  · norm_num [jointC4]
  · show (0 : ℝ) < calculateDistance ⟨0, 0⟩ ⟨1, 0⟩
    unfold calculateDistance
    rw [Real.sqrt_pos]
    norm_num
  · show (0 : ℝ) + 0 = 0
    norm_num

/-- C6: for a topology of a single joint with target length L > 0 between
two visible markers with positive confidences at distance d > 0, one
relaxation pass (solve with iterations = 1) moves the endpoints to
distance (d + L) / 2, keeping confidence and visibility, so the gap
|d − L| is exactly halved by every pass and strictly decreases toward the
fixed point where the distance equals L. -/
theorem solver_single_joint_halves_gap (num : ℤ) (ts : ℝ) (a b : String)
    (sa sb : MarkerSample) (L : ℝ) (nm : String) (hab : a ≠ b)
    (hva : sa.isVisible = true) (hvb : sb.isVisible = true)
    (hca : 0 < sa.confidence) (hcb : 0 < sb.confidence) (hL : 0 < L)
    (hd : 0 < calculateDistance ⟨sa.x, sa.y⟩ ⟨sb.x, sb.y⟩) :
    ∃ sa2 sb2 : MarkerSample,
      getEntry (applyLengthConstraints ⟨num, ts, [(a, sa), (b, sb)]⟩
        [⟨a, b, L, nm⟩] 1).markers a = some sa2 ∧
      getEntry (applyLengthConstraints ⟨num, ts, [(a, sa), (b, sb)]⟩
        [⟨a, b, L, nm⟩] 1).markers b = some sb2 ∧
      sa2.confidence = sa.confidence ∧ sa2.isVisible = sa.isVisible ∧
      sb2.confidence = sb.confidence ∧ sb2.isVisible = sb.isVisible ∧
      calculateDistance ⟨sa2.x, sa2.y⟩ ⟨sb2.x, sb2.y⟩ =
        (calculateDistance ⟨sa.x, sa.y⟩ ⟨sb.x, sb.y⟩ + L) / 2 ∧
      |(calculateDistance ⟨sa.x, sa.y⟩ ⟨sb.x, sb.y⟩ + L) / 2 - L| =
        |calculateDistance ⟨sa.x, sa.y⟩ ⟨sb.x, sb.y⟩ - L| / 2 := by
  have hd2 : 0 < calculateDistance (mkNode sa).newPosition
      (mkNode sb).newPosition := hd
  set D := calculateDistance ⟨sa.x, sa.y⟩ ⟨sb.x, sb.y⟩ with hD
  set C := (L - D) / D with hC
  set WS := sb.confidence / (sa.confidence + sb.confidence) with hWS
  set WE := sa.confidence / (sa.confidence + sb.confidence) with hWE
  have hml : (applyLengthConstraints ⟨num, ts, [(a, sa), (b, sb)]⟩
      [⟨a, b, L, nm⟩] 1).markers =
      [(a, { sa with x := sa.x - (sb.x - sa.x) * C * WS * 0.5,
                     y := sa.y - (sb.y - sa.y) * C * WS * 0.5 }),
       (b, { sb with x := sb.x + (sb.x - sa.x) * C * WE * 0.5,
                     y := sb.y + (sb.y - sa.y) * C * WE * 0.5 })] := by
    show List.foldl writeBack (⟨num, ts, [(a, sa), (b, sb)]⟩ : Frame).markers
      ((solverPass [⟨a, b, L, nm⟩])^[1]
        (buildGraph ⟨num, ts, [(a, sa), (b, sb)]⟩)) = _
    rw [Function.iterate_one]
    show List.foldl writeBack [(a, sa), (b, sb)]
      (applyJointConstraint (buildGraph ⟨num, ts, [(a, sa), (b, sb)]⟩)
        ⟨a, b, L, nm⟩) = _
    rw [buildGraph_two num ts a b sa sb hab hva hvb,
      applyJointConstraint_two a b (mkNode sa) (mkNode sb) L nm hab hL hd2]
    exact writeBack_two a b sa sb _ _ hab
  refine ⟨{ sa with x := sa.x - (sb.x - sa.x) * C * WS * 0.5,
                    y := sa.y - (sb.y - sa.y) * C * WS * 0.5 },
          { sb with x := sb.x + (sb.x - sa.x) * C * WE * 0.5,
                    y := sb.y + (sb.y - sa.y) * C * WE * 0.5 },
          ?_, ?_, rfl, rfl, rfl, rfl, ?_, ?_⟩
  · rw [hml, getEntry_cons, if_pos rfl]
  · rw [hml, getEntry_cons, if_neg hab, getEntry_cons, if_pos rfl]
  · have hshift := calculateDistance_corrected ⟨sa.x, sa.y⟩ ⟨sb.x, sb.y⟩ C WS WE
    dsimp only at hshift ⊢
    rw [hshift, ← hD]
    have hw : (0 : ℝ) < sa.confidence + sb.confidence := by linarith
    have hsval : 1 + C * WS * 0.5 + C * WE * 0.5 = (D + L) / (2 * D) := by
      rw [hC, hWS, hWE]
      field_simp
      ring
    rw [hsval, abs_of_pos (div_pos (by linarith) (by linarith))]
    field_simp
    ring
  · rw [show (D + L) / 2 - L = (D - L) / 2 from by ring, abs_div, abs_two]

/-- Witness for C6 at the concrete scenario A = (0,0), B = (3,4), both
confidence 1, joint length 10 (initial distance 5). -/
theorem solver_single_joint_halves_gap_witness :
    ∃ sa2 sb2 : MarkerSample,
      getEntry (applyLengthConstraints
        ⟨0, 0, [("A", ⟨0, 0, 1, true⟩), ("B", ⟨3, 4, 1, true⟩)]⟩
        [⟨"A", "B", 10, "AB"⟩] 1).markers "A" = some sa2 ∧
      getEntry (applyLengthConstraints
        ⟨0, 0, [("A", ⟨0, 0, 1, true⟩), ("B", ⟨3, 4, 1, true⟩)]⟩
        [⟨"A", "B", 10, "AB"⟩] 1).markers "B" = some sb2 ∧
      sa2.confidence = 1 ∧ sa2.isVisible = true ∧
      sb2.confidence = 1 ∧ sb2.isVisible = true ∧
      calculateDistance ⟨sa2.x, sa2.y⟩ ⟨sb2.x, sb2.y⟩ =
        (calculateDistance ⟨0, 0⟩ ⟨3, 4⟩ + 10) / 2 ∧
      |(calculateDistance ⟨0, 0⟩ ⟨3, 4⟩ + 10) / 2 - 10| =
        |calculateDistance ⟨0, 0⟩ ⟨3, 4⟩ - 10| / 2 :=
  solver_single_joint_halves_gap 0 0 "A" "B" ⟨0, 0, 1, true⟩ ⟨3, 4, 1, true⟩
    10 "AB" (by decide) rfl rfl (by norm_num) (by norm_num) (by norm_num)
    (by
      show (0 : ℝ) < calculateDistance ⟨0, 0⟩ ⟨3, 4⟩
      unfold calculateDistance
      rw [Real.sqrt_pos]
      norm_num)

/-- C5: at the frame A = (0,0), B = (3,4), both confidence 1 and visible,
with the joint A-B of target length 10 and one iteration, the solver
splits the correction 50/50 (both endpoints are displaced by the same
distance 1.25), moving A to (-0.75, -1) and B to (3.75, 5), and the
resulting distance between A and B is exactly 7.5. -/
theorem solver_scenario_distance :
    getEntry (applyLengthConstraints frameC5 [jointC5] 1).markers "A" =
      some ⟨-0.75, -1, 1, true⟩ ∧
    getEntry (applyLengthConstraints frameC5 [jointC5] 1).markers "B" =
      some ⟨3.75, 5, 1, true⟩ ∧
    calculateDistance ⟨-0.75, -1⟩ ⟨3.75, 5⟩ = 7.5 ∧
    calculateDistance ⟨0, 0⟩ ⟨-0.75, -1⟩ = calculateDistance ⟨3, 4⟩ ⟨3.75, 5⟩ := by
  have h5 : calculateDistance ⟨(0 : ℝ), 0⟩ ⟨(3 : ℝ), 4⟩ = 5 := by
    unfold calculateDistance
    exact sqrt_val (by norm_num) (by norm_num)
  set E := calculateDistance ⟨(0 : ℝ), 0⟩ ⟨(3 : ℝ), 4⟩ with hE
  have hd0 : (0 : ℝ) < calculateDistance (mkNode ⟨0, 0, 1, true⟩).newPosition
      (mkNode ⟨3, 4, 1, true⟩).newPosition := by
    show (0 : ℝ) < E
    rw [h5]
    norm_num
  have hml : (applyLengthConstraints frameC5 [jointC5] 1).markers =
      [("A", { x := 0 - (3 - 0) * ((10 - E) / E) * (1 / (1 + 1)) * 0.5, y := 0 - (4 - 0) * ((10 - E) / E) * (1 / (1 + 1)) * 0.5, confidence := 1, isVisible := true }),
       ("B", { x := 3 + (3 - 0) * ((10 - E) / E) * (1 / (1 + 1)) * 0.5, y := 4 + (4 - 0) * ((10 - E) / E) * (1 / (1 + 1)) * 0.5, confidence := 1, isVisible := true })] := by
    show List.foldl writeBack frameC5.markers
      ((solverPass [jointC5])^[1] (buildGraph frameC5)) = _
    rw [Function.iterate_one]
    show List.foldl writeBack frameC5.markers
      (applyJointConstraint (buildGraph frameC5) jointC5) = _
    rw [show buildGraph frameC5 =
        [("A", mkNode ⟨0, 0, 1, true⟩), ("B", mkNode ⟨3, 4, 1, true⟩)] from
      buildGraph_two 0 0 "A" "B" ⟨0, 0, 1, true⟩ ⟨3, 4, 1, true⟩ (by decide)
        rfl rfl]
    rw [show (jointC5 : Joint) = ⟨"A", "B", 10, "A-B"⟩ from rfl]
    rw [applyJointConstraint_two "A" "B" (mkNode ⟨0, 0, 1, true⟩)
      (mkNode ⟨3, 4, 1, true⟩) 10 "A-B" (by decide) (by norm_num) hd0]
    exact writeBack_two "A" "B" ⟨0, 0, 1, true⟩ ⟨3, 4, 1, true⟩ _ _ (by decide)
  refine ⟨?_, ?_, ?_, ?_⟩
  · rw [hml, getEntry_cons, if_pos rfl, h5]
    norm_num
  · rw [hml, getEntry_cons, if_neg (by decide), getEntry_cons, if_pos rfl, h5]
    norm_num
  · unfold calculateDistance
    exact sqrt_val (by norm_num) (by norm_num)
  · have hA : calculateDistance ⟨(0 : ℝ), 0⟩ ⟨(-0.75 : ℝ), -1⟩ = 1.25 := by
      unfold calculateDistance
      exact sqrt_val (by norm_num) (by norm_num)
    have hB : calculateDistance ⟨(3 : ℝ), 4⟩ ⟨(3.75 : ℝ), 5⟩ = 1.25 := by
      unfold calculateDistance
      exact sqrt_val (by norm_num) (by norm_num)
    rw [hA, hB]

/-! ## Source fusion at blend ratio 0 -/

theorem getEntry_setEntry_self {α : Type} (l : List (String × α)) (k : String)
    (v : α) : getEntry (setEntry l k v) k = some v := by
  induction l with
  | nil => simp [setEntry, getEntry]
  | cons p rest ih =>
    rw [setEntry_cons]
    by_cases hp : p.1 = k
    · rw [if_pos hp, getEntry_cons]
      simp [hp]
    · rw [if_neg hp, getEntry_cons, if_neg hp, ih]

theorem blendStep_getEntry_ne (q : Frame) (r : ℝ)
    (ms : List (String × MarkerSample)) (p : String × MarkerSample)
    (k : String) (h : p.1 ≠ k) :
    getEntry (blendStep q r ms p) k = getEntry ms k := by
  unfold blendStep
  rcases ht : getEntry q.markers p.1 with _ | t
  · simp only [ht]
  · simp only [ht]
    by_cases hv : p.2.isVisible && t.isVisible
    · rw [if_pos hv]
      by_cases hw : (0 : ℝ) < p.2.confidence * (1 - r) + t.confidence * r
      · rw [if_pos hw]
        exact getEntry_setEntry_ne ms k p.1 _ h
      · rw [if_neg hw]
    · rw [if_neg hv]

theorem blendStep_getEntry_congr (q : Frame) (r : ℝ)
    (ms ms2 : List (String × MarkerSample)) (k : String) (s : MarkerSample)
    (h : getEntry ms k = getEntry ms2 k) :
    getEntry (blendStep q r ms (k, s)) k =
      getEntry (blendStep q r ms2 (k, s)) k := by
  unfold blendStep
  dsimp only
  rcases ht : getEntry q.markers k with _ | t
  · simp only [ht]
    exact h
  · simp only [ht]
    by_cases hv : s.isVisible && t.isVisible
    · rw [if_pos hv, if_pos hv]
      by_cases hw : (0 : ℝ) < s.confidence * (1 - r) + t.confidence * r
      · rw [if_pos hw, if_pos hw]
        rw [getEntry_setEntry_self, getEntry_setEntry_self]
      · rw [if_neg hw, if_neg hw]
        exact h
    · rw [if_neg hv, if_neg hv]
      exact h

theorem blend_fold_lookup (q : Frame) (r : ℝ) :
    ∀ (l ms : List (String × MarkerSample)) (k : String) (s : MarkerSample),
    (l.map Prod.fst).Nodup → (k, s) ∈ l → getEntry ms k = some s →
    getEntry (l.foldl (blendStep q r) ms) k =
      getEntry (blendStep q r ms (k, s)) k := by
  intro l
  induction l with
  | nil => intro ms k s _ hmem _; simp at hmem
  | cons p rest ih =>
    intro ms k s hnd hmem hms
    rw [List.map_cons, List.nodup_cons] at hnd
    rw [List.foldl_cons]
    by_cases hpk : p.1 = k
    · have hp : p = (k, s) := by
        rcases List.mem_cons.mp hmem with heq | hmem2
        · exact heq.symm
        · exact absurd (hpk ▸ List.mem_map.mpr ⟨(k, s), hmem2, rfl⟩) hnd.1
      subst hp
      rw [foldl_getEntry_invariant (blendStep q r) rest k
        (fun ms2 b hb => blendStep_getEntry_ne q r ms2 b k
          (fun hc => hnd.1 (hc ▸ List.mem_map.mpr ⟨b, hb, rfl⟩)))]
    · have hmem2 : (k, s) ∈ rest := by
        rcases List.mem_cons.mp hmem with heq | hmem2
        · exact absurd (by rw [← heq]) hpk
        · exact hmem2
      have hpres : getEntry (blendStep q r ms p) k = getEntry ms k :=
        blendStep_getEntry_ne q r ms p k hpk
      rw [ih (blendStep q r ms p) k s hnd.2 hmem2 (by rw [hpres, hms])]
      exact blendStep_getEntry_congr q r _ ms k s (by rw [hpres])

/-- C8: fusing with blend ratio 0 preserves the primary source.  For every
key of the primary frame (whose keys are unique, as JS records guarantee)
holding sample s: if `s.confidence > 0` the output position equals the
primary position exactly; a key missing or invisible in the secondary
frame passes through with the primary sample unchanged; and a key whose
combined weight sum is 0 also passes through unchanged. -/
theorem blend_ratio_zero_preserves_primary (primary secondary : Frame)
    (k : String) (s : MarkerSample)
    (hnd : (primary.markers.map Prod.fst).Nodup)
    (hs : getEntry primary.markers k = some s) :
    (0 < s.confidence → ∃ o,
      getEntry (blendMarkerAndMarkerlessData primary secondary 0).markers k =
        some o ∧ o.x = s.x ∧ o.y = s.y) ∧
    ((∀ t, getEntry secondary.markers k = some t → t.isVisible = false) →
      getEntry (blendMarkerAndMarkerlessData primary secondary 0).markers k =
        some s) ∧
    (∀ t, getEntry secondary.markers k = some t →
      s.confidence * (1 - 0) + t.confidence * 0 = 0 →
      getEntry (blendMarkerAndMarkerlessData primary secondary 0).markers k =
        some s) := by
  have hkey : getEntry (blendMarkerAndMarkerlessData primary secondary 0).markers
      k = getEntry (blendStep secondary 0 primary.markers (k, s)) k := by
    show getEntry
      (List.foldl (blendStep secondary 0) primary.markers primary.markers) k = _
    exact blend_fold_lookup secondary 0 primary.markers primary.markers k s hnd
      (getEntry_mem hs) hs
  rw [hkey]
  refine ⟨?_, ?_, ?_⟩
  · intro hconf
    unfold blendStep
    dsimp only
    rcases ht : getEntry secondary.markers k with _ | t
    · simp only [ht]
      exact ⟨s, hs, rfl, rfl⟩
    · simp only [ht]
      by_cases hv : s.isVisible && t.isVisible
      · rw [if_pos hv]
        have hw : (0 : ℝ) < s.confidence * (1 - 0) + t.confidence * 0 := by
          simpa using hconf
        rw [if_pos hw, getEntry_setEntry_self]
        refine ⟨_, rfl, ?_, ?_⟩
        · show (s.x * (s.confidence * (1 - 0)) + t.x * (t.confidence * 0)) /
            (s.confidence * (1 - 0) + t.confidence * 0) = s.x
          have hc : s.confidence ≠ 0 := hconf.ne'
          field_simp
        · show (s.y * (s.confidence * (1 - 0)) + t.y * (t.confidence * 0)) /
            (s.confidence * (1 - 0) + t.confidence * 0) = s.y
          have hc : s.confidence ≠ 0 := hconf.ne'
          field_simp
      · rw [if_neg hv]
        exact ⟨s, hs, rfl, rfl⟩
  · intro hinv
    unfold blendStep
    dsimp only
    rcases ht : getEntry secondary.markers k with _ | t
    · simp only [ht]
      exact hs
    · simp only [ht]
      rw [if_neg (by simp [hinv t ht])]
      exact hs
  · intro t ht hzero
    unfold blendStep
    dsimp only
    simp only [ht]
    by_cases hv : s.isVisible && t.isVisible
    · rw [if_pos hv]
      have hnlt : ¬(0 : ℝ) < s.confidence * (1 - 0) + t.confidence * 0 := by
        rw [hzero]
        exact lt_irrefl 0
      rw [if_neg hnlt]
      exact hs
    · rw [if_neg hv]
      exact hs

/-- Witness for C8 at concrete primary and secondary frames. -/
theorem blend_ratio_zero_preserves_primary_witness :
    ∃ o, getEntry (blendMarkerAndMarkerlessData framePrimary frameSecondary
      0).markers "A" = some o ∧ o.x = 1 ∧ o.y = 2 :=
  (blend_ratio_zero_preserves_primary framePrimary frameSecondary "A"
    ⟨1, 2, 0.5, true⟩ (by simp [framePrimary])
    (by simp [framePrimary, getEntry])).1 (by norm_num)

/-! ## Temporal smoothing: zero-confidence windows and invalid inputs -/

theorem getD_map_range {α : Type} (f : ℕ → α) (n i : ℕ) (d : α) (h : i < n) :
    ((List.range n).map f).getD i d = f i := by
  rw [List.getD_eq_get _ _ (by simpa using h)]
  simp

/-- C10: when the smoothing window of a marker key at frame i holds at
least one visible sample but the visible samples' confidences sum to 0,
the code's guard `count > 0 && sumConfidence > 0` fails, so the
weighted-mean division is never performed and frame i's sample for that
key is left completely unchanged. -/
theorem smoothing_zero_confidence_sum_unchanged (frames : List Frame)
    (windowSize : ℤ) (i : ℕ) (k : String)
    (hcount : 0 < (windowStats frames windowSize (i : ℤ) k).count)
    (hsum : (windowStats frames windowSize (i : ℤ) k).sumConfidence = 0) :
    getEntry ((applyTemporalSmoothing frames windowSize).getD i default).markers
      k = getEntry (frames.getD i default).markers k := by
  unfold applyTemporalSmoothing
  split
  · rfl
  · by_cases hi : i < frames.length
    · rw [getD_map_range _ _ _ _ hi]
      unfold smoothFrame
      dsimp only
      rw [foldl_getEntry_invariant _ _ k ?_ (frames.getD i default).markers]
      intro ms p _
      rcases horig : getEntry (frames.getD i default).markers p.1 with _ | orig
      · simp only [horig]
      · simp only [horig]
        by_cases hpk : p.1 = k
        · rw [if_neg ?_]
          rw [hpk]
          intro hc
          rw [hsum] at hc
          exact lt_irrefl 0 hc.2
        · split
          · exact getEntry_setEntry_ne ms k p.1 _ hpk
          · rfl
    · rw [List.getD_eq_default _ _ (by simpa using Nat.le_of_not_lt hi),
        List.getD_eq_default _ _ (Nat.le_of_not_lt hi)]

/-- Witness for C10: two frames whose only marker is visible with
confidence 0; the window at frame 0 holds two visible samples whose
confidence sum is 0, and the sample passes through unchanged. -/
theorem smoothing_zero_confidence_sum_unchanged_witness :
    getEntry ((applyTemporalSmoothing [frameZeroConf, frameZeroConf] 3).getD 0
      default).markers "A" =
    getEntry (([frameZeroConf, frameZeroConf] : List Frame).getD 0
      default).markers "A" := by
  have hwi : windowIndices 2 3 0 = [0, 1] := rfl
  have hws : windowStats [frameZeroConf, frameZeroConf] 3 0 "A" =
      ⟨1 * 0 + 1 * 0, 2 * 0 + 2 * 0, 0 + 0, 2⟩ := by
    unfold windowStats
    rw [show ([frameZeroConf, frameZeroConf] : List Frame).length = 2 from rfl,
      hwi]
    norm_num [frameZeroConf, getEntry, List.getD]
  exact smoothing_zero_confidence_sum_unchanged [frameZeroConf, frameZeroConf]
    3 0 "A" (by rw [show ((0 : ℕ) : ℤ) = 0 from rfl, hws]; norm_num)
    (by rw [show ((0 : ℕ) : ℤ) = 0 from rfl, hws]; norm_num)

theorem smoothing_window_le_one (frames : List Frame) (w : ℤ) (hw : w ≤ 1) :
    applyTemporalSmoothing frames w = frames := by
  unfold applyTemporalSmoothing
  rw [if_pos (Or.inr hw)]

theorem correlationAt_nonpos_window (mA mB : List ℝ) (w : ℤ) (hw : w ≤ 0)
    (offset : ℤ) : correlationAt mA mB w offset = (0, 0) := by
  unfold correlationAt
  rw [show w.toNat = 0 from Int.toNat_of_nonpos hw]
  rfl

theorem sync_window_neg (fa fb : List Frame) (w : ℤ) (hw : w < 0) :
    synchronizeData fa fb w = (fa, fb) := by
  have hb : ∀ (mA mB : List ℝ) (mo : ℕ), bestOffset mA mB w mo = 0 := by
    intro mA mB mo
    unfold bestOffset
    rw [foldl_eq_init _ _ _ ?_]
    intro st off _
    unfold bestStep
    rw [correlationAt_nonpos_window mA mB w hw.le off]
    norm_num
  unfold synchronizeData
  split
  · rfl
  · dsimp only
    rw [hb]
    norm_num

/-- C9 (amended): invalid structural inputs are not signaled as failures —
the code silently returns its input: `applyTemporalSmoothing` with any
`windowSize ≤ 1` (in particular 0 or negative) returns the input frames
unchanged, and `synchronizeData` with a negative `compareWindow` returns
both sequences unchanged (its correlation loop gathers no samples, so the
offset stays 0).  Neither function has a failure path. -/
theorem invalid_structural_inputs_silently_returned :
    (∀ (frames : List Frame) (w : ℤ), w ≤ 1 →
      applyTemporalSmoothing frames w = frames) ∧
    (∀ (fa fb : List Frame) (w : ℤ), w < 0 →
      synchronizeData fa fb w = (fa, fb)) :=
  ⟨smoothing_window_le_one, sync_window_neg⟩

/-- Witness for the amended C9 at concrete inputs. -/
theorem invalid_structural_inputs_silently_returned_witness :
    applyTemporalSmoothing [frameSimple] 0 = [frameSimple] ∧
    synchronizeData [frameSimple] [frameSimple2] (-1) =
      ([frameSimple], [frameSimple2]) :=
  ⟨invalid_structural_inputs_silently_returned.1 [frameSimple] 0 (by norm_num),
   invalid_structural_inputs_silently_returned.2 [frameSimple] [frameSimple2]
     (-1) (by norm_num)⟩

/-- C9 (counterexample): smoothing called with the invalid windowSize 0
and alignment called with the negative compareWindow -1 both return their
input unchanged — an ordinary result, not an invalid-argument failure
(the source has no throw statement in either function).  The claim that
such inputs signal a failure to the caller rather than silently returning
the input is therefore false. -/
theorem invalid_inputs_no_failure_counterexample :
    applyTemporalSmoothing [frameSimple, frameSimple2] 0 =
      [frameSimple, frameSimple2] ∧
    synchronizeData [frameSimple, frameSimple2] [frameSimple, frameSimple2]
      (-1) = ([frameSimple, frameSimple2], [frameSimple, frameSimple2]) :=
  ⟨smoothing_window_le_one _ _ (by norm_num),
   sync_window_neg _ _ _ (by norm_num)⟩

/-! ## Temporal synchronizer: the best-offset scan -/

theorem bestStep_pres (mA mB : List ℝ) (w : ℤ) (cv0 : ℝ) (kk : ℤ)
    (hk : 0 < (correlationAt mA mB w kk).2 →
      (correlationAt mA mB w kk).1 / ((correlationAt mA mB w kk).2 : ℝ) < cv0)
    (s : ℤ × Option ℝ)
    (hs : (s.2 = none ∧ s.1 = 0) ∨ ∃ c, s.2 = some c ∧ c < cv0) :
    ((bestStep mA mB w s kk).2 = none ∧ (bestStep mA mB w s kk).1 = 0) ∨
      ∃ c, (bestStep mA mB w s kk).2 = some c ∧ c < cv0 := by
  obtain ⟨s1, s2⟩ := s
  dsimp only [bestStep]
  by_cases hc : 0 < (correlationAt mA mB w kk).2
  · rw [if_pos hc]
    rcases hs with ⟨hnone, h0⟩ | ⟨c, hsome, hlt⟩
    · dsimp only at hnone
      subst hnone
      exact Or.inr ⟨_, rfl, hk hc⟩
    · dsimp only at hsome
      subst hsome
      dsimp only
      split
      · exact Or.inr ⟨_, rfl, hk hc⟩
      · exact Or.inr ⟨c, rfl, hlt⟩
  · rw [if_neg hc]
    exact hs

theorem bestStep_inv1 (mA mB : List ℝ) (w : ℤ) (cv0 : ℝ) (l : List ℤ)
    (hl : ∀ kk ∈ l, 0 < (correlationAt mA mB w kk).2 →
      (correlationAt mA mB w kk).1 / ((correlationAt mA mB w kk).2 : ℝ) < cv0) :
    ∀ s : ℤ × Option ℝ,
    (s.2 = none ∧ s.1 = 0) ∨ (∃ c, s.2 = some c ∧ c < cv0) →
    ((l.foldl (bestStep mA mB w) s).2 = none ∧
        (l.foldl (bestStep mA mB w) s).1 = 0) ∨
      ∃ c, (l.foldl (bestStep mA mB w) s).2 = some c ∧ c < cv0 := by
  induction l with
  | nil => intro s hs; exact hs
  | cons kk rest ih =>
    intro s hs
    rw [List.foldl_cons]
    exact ih (fun j hj => hl j (List.mem_cons_of_mem _ hj)) _
      (bestStep_pres mA mB w cv0 kk (hl kk (List.mem_cons_self kk rest)) s hs)

theorem bestStep_at_zero (mA mB : List ℝ) (w : ℤ)
    (hc0 : 0 < (correlationAt mA mB w 0).2) (s : ℤ × Option ℝ)
    (hs : (s.2 = none ∧ s.1 = 0) ∨ ∃ c, s.2 = some c ∧
      c < (correlationAt mA mB w 0).1 / ((correlationAt mA mB w 0).2 : ℝ)) :
    bestStep mA mB w s 0 =
      (0, some ((correlationAt mA mB w 0).1 /
        ((correlationAt mA mB w 0).2 : ℝ))) := by
  obtain ⟨s1, s2⟩ := s
  dsimp only [bestStep]
  rw [if_pos hc0]
  rcases hs with ⟨hnone, h0⟩ | ⟨c, hsome, hlt⟩
  · dsimp only at hnone
    subst hnone
    rfl
  · dsimp only at hsome
    subst hsome
    dsimp only
    rw [if_pos hlt]

theorem bestStep_no_improve (mA mB : List ℝ) (w : ℤ) (kk j : ℤ) (c : ℝ)
    (h : 0 < (correlationAt mA mB w kk).2 →
      (correlationAt mA mB w kk).1 / ((correlationAt mA mB w kk).2 : ℝ) ≤ c) :
    bestStep mA mB w (j, some c) kk = (j, some c) := by
  dsimp only [bestStep]
  by_cases hc : 0 < (correlationAt mA mB w kk).2
  · rw [if_pos hc]
    rw [if_neg (not_lt.mpr (h hc))]
  · rw [if_neg hc]

theorem bestStep_keep (mA mB : List ℝ) (w : ℤ) (l : List ℤ)
    (hl : ∀ kk ∈ l, 0 < (correlationAt mA mB w kk).2 →
      (correlationAt mA mB w kk).1 / ((correlationAt mA mB w kk).2 : ℝ) <
        (correlationAt mA mB w 0).1 / ((correlationAt mA mB w 0).2 : ℝ)) :
    l.foldl (bestStep mA mB w)
      (0, some ((correlationAt mA mB w 0).1 /
        ((correlationAt mA mB w 0).2 : ℝ))) =
      (0, some ((correlationAt mA mB w 0).1 /
        ((correlationAt mA mB w 0).2 : ℝ))) := by
  induction l with
  | nil => rfl
  | cons kk rest ih =>
    rw [List.foldl_cons,
      bestStep_no_improve mA mB w kk 0 _
        (fun hc => (hl kk (List.mem_cons_self kk rest) hc).le)]
    exact ih fun j hj => hl j (List.mem_cons_of_mem _ hj)

theorem bestOffset_strict_max (mA mB : List ℝ) (w : ℤ) (mo : ℕ)
    (hc0 : 0 < (correlationAt mA mB w 0).2)
    (hstrict : ∀ kk ∈ offsetList mo, kk ≠ 0 →
      0 < (correlationAt mA mB w kk).2 →
      (correlationAt mA mB w kk).1 / ((correlationAt mA mB w kk).2 : ℝ) <
        (correlationAt mA mB w 0).1 / ((correlationAt mA mB w 0).2 : ℝ)) :
    bestOffset mA mB w mo = 0 := by
  have h0mem : (0 : ℤ) ∈ offsetList mo := by
    unfold offsetList
    refine List.mem_map.mpr ⟨mo, List.mem_range.mpr ?_, ?_⟩
    · omega
    · simp
  have hnd : (offsetList mo).Nodup := by
    unfold offsetList
    refine (List.nodup_range (2 * mo + 1)).map ?_
    intro x y hxy
    have hxy2 : (x : ℤ) - (mo : ℤ) = (y : ℤ) - (mo : ℤ) := hxy
    omega
  obtain ⟨l1, l2, hsplit⟩ := List.append_of_mem h0mem
  rw [hsplit] at hnd
  have hdisj := (List.nodup_append.mp hnd).2.2
  have h01 : (0 : ℤ) ∉ l1 := fun hmem =>
    hdisj hmem (List.mem_cons_self 0 l2)
  have h02 : (0 : ℤ) ∉ l2 :=
    (List.nodup_cons.mp (List.nodup_append.mp hnd).2.1).1
  have hP1 : ∀ kk ∈ l1, 0 < (correlationAt mA mB w kk).2 →
      (correlationAt mA mB w kk).1 / ((correlationAt mA mB w kk).2 : ℝ) <
        (correlationAt mA mB w 0).1 / ((correlationAt mA mB w 0).2 : ℝ) :=
    fun kk hkk => hstrict kk
      (hsplit ▸ List.mem_append.mpr (Or.inl hkk))
      (fun hc => h01 (hc ▸ hkk))
  have hP2 : ∀ kk ∈ l2, 0 < (correlationAt mA mB w kk).2 →
      (correlationAt mA mB w kk).1 / ((correlationAt mA mB w kk).2 : ℝ) <
        (correlationAt mA mB w 0).1 / ((correlationAt mA mB w 0).2 : ℝ) :=
    fun kk hkk => hstrict kk
      (hsplit ▸ List.mem_append.mpr (Or.inr (List.mem_cons_of_mem _ hkk)))
      (fun hc => h02 (hc ▸ hkk))
  unfold bestOffset
  rw [hsplit, List.foldl_append, List.foldl_cons]
  rw [bestStep_at_zero mA mB w hc0 _
    (bestStep_inv1 mA mB w _ l1 hP1 (0, none) (Or.inl ⟨rfl, rfl⟩))]
  rw [bestStep_keep mA mB w l2 hP2]

/-- C1 (amended): for identical input sequences the synchronizer returns
both sequences unchanged whenever offset 0 is the strict maximizer of the
average correlation over the scanned offsets; in general the scan keeps
the first (most negative) offset attaining the maximum, so a tie or a
larger average at a nonzero offset makes the call drop leading frames
from one of the sequences even though the inputs are identical. -/
theorem align_self_identity_of_strict_max (seq : List Frame) (w : ℤ)
    (hlen : ¬((seq.length : ℤ) < w))
    (hc0 : 0 < (correlationAt (calculateMovement seq) (calculateMovement seq)
      w 0).2)
    (hstrict : ∀ kk ∈ offsetList (seq.length / 4), kk ≠ 0 →
      0 < (correlationAt (calculateMovement seq) (calculateMovement seq)
        w kk).2 →
      (correlationAt (calculateMovement seq) (calculateMovement seq) w kk).1 /
        ((correlationAt (calculateMovement seq) (calculateMovement seq)
          w kk).2 : ℝ) <
      (correlationAt (calculateMovement seq) (calculateMovement seq) w 0).1 /
        ((correlationAt (calculateMovement seq) (calculateMovement seq)
          w 0).2 : ℝ)) :
    synchronizeData seq seq w = (seq, seq) := by
  unfold synchronizeData
  rw [if_neg (by simp only [or_self]; exact hlen)]
  dsimp only
  rw [min_self]
  rw [bestOffset_strict_max _ _ _ _ hc0 hstrict]
  norm_num

theorem frameMovement_frameX (x y : ℝ) :
    frameMovement (frameX x) (frameX y) = |x - y| := by
  unfold frameMovement frameX
  norm_num [getEntry, calculateDistance, Real.sqrt_sq_eq_abs]

theorem calculateMovement_constant :
    calculateMovement seqConstantMotion = [1, 1, 1] := by
  show List.map (fun p => frameMovement p.1 p.2)
    (seqConstantMotion.zip seqConstantMotion.tail) = _
  rw [show seqConstantMotion.zip seqConstantMotion.tail =
    [(frameX 0, frameX 1), (frameX 1, frameX 2), (frameX 2, frameX 3)] from
    rfl]
  simp only [List.map_cons, List.map_nil]
  rw [frameMovement_frameX, frameMovement_frameX, frameMovement_frameX]
  norm_num

theorem calculateMovement_burst :
    calculateMovement seqBurstMotion = [0, 10, 0] := by
  show List.map (fun p => frameMovement p.1 p.2)
    (seqBurstMotion.zip seqBurstMotion.tail) = _
  rw [show seqBurstMotion.zip seqBurstMotion.tail =
    [(frameX 0, frameX 0), (frameX 0, frameX 10), (frameX 10, frameX 10)] from
    rfl]
  simp only [List.map_cons, List.map_nil]
  rw [frameMovement_frameX, frameMovement_frameX, frameMovement_frameX]
  norm_num [abs_sub_comm]

theorem corrConst_neg1 :
    correlationAt [1, 1, 1] [1, 1, 1] 4 (-1) = (2, 2) := by
  unfold correlationAt
  rw [show List.range ((4 : ℤ)).toNat = [0, 1, 2, 3] from rfl]
  simp only [List.foldl_cons, List.foldl_nil]
  norm_num [getMovement, List.getD, Int.toNat_ofNat,
    show ([1, 1, 1] : List ℝ)[Int.toNat 2] = 1 from rfl,
    show ([0, 10, 0] : List ℝ)[Int.toNat 2] = 0 from rfl]

theorem corrConst_zero :
    correlationAt [1, 1, 1] [1, 1, 1] 4 0 = (3, 3) := by
  unfold correlationAt
  rw [show List.range ((4 : ℤ)).toNat = [0, 1, 2, 3] from rfl]
  simp only [List.foldl_cons, List.foldl_nil]
  norm_num [getMovement, List.getD, Int.toNat_ofNat,
    show ([1, 1, 1] : List ℝ)[Int.toNat 2] = 1 from rfl,
    show ([0, 10, 0] : List ℝ)[Int.toNat 2] = 0 from rfl]

theorem corrConst_one :
    correlationAt [1, 1, 1] [1, 1, 1] 4 1 = (2, 2) := by
  unfold correlationAt
  rw [show List.range ((4 : ℤ)).toNat = [0, 1, 2, 3] from rfl]
  simp only [List.foldl_cons, List.foldl_nil]
  norm_num [getMovement, List.getD, Int.toNat_ofNat,
    show ([1, 1, 1] : List ℝ)[Int.toNat 2] = 1 from rfl,
    show ([0, 10, 0] : List ℝ)[Int.toNat 2] = 0 from rfl]

theorem corrBurst_neg1 :
    correlationAt [0, 10, 0] [0, 10, 0] 4 (-1) = (0, 2) := by
  unfold correlationAt
  rw [show List.range ((4 : ℤ)).toNat = [0, 1, 2, 3] from rfl]
  simp only [List.foldl_cons, List.foldl_nil]
  norm_num [getMovement, List.getD, Int.toNat_ofNat,
    show ([1, 1, 1] : List ℝ)[Int.toNat 2] = 1 from rfl,
    show ([0, 10, 0] : List ℝ)[Int.toNat 2] = 0 from rfl]

theorem corrBurst_zero :
    correlationAt [0, 10, 0] [0, 10, 0] 4 0 = (100, 3) := by
  unfold correlationAt
  rw [show List.range ((4 : ℤ)).toNat = [0, 1, 2, 3] from rfl]
  simp only [List.foldl_cons, List.foldl_nil]
  norm_num [getMovement, List.getD, Int.toNat_ofNat,
    show ([1, 1, 1] : List ℝ)[Int.toNat 2] = 1 from rfl,
    show ([0, 10, 0] : List ℝ)[Int.toNat 2] = 0 from rfl]

theorem corrBurst_one :
    correlationAt [0, 10, 0] [0, 10, 0] 4 1 = (0, 2) := by
  unfold correlationAt
  rw [show List.range ((4 : ℤ)).toNat = [0, 1, 2, 3] from rfl]
  simp only [List.foldl_cons, List.foldl_nil]
  norm_num [getMovement, List.getD, Int.toNat_ofNat,
    show ([1, 1, 1] : List ℝ)[Int.toNat 2] = 1 from rfl,
    show ([0, 10, 0] : List ℝ)[Int.toNat 2] = 0 from rfl]

/-- Witness for the amended C1: a sequence whose motion series is
[0, 10, 0], where offset 0 is the strict correlation maximizer, is
returned unchanged by the synchronizer. -/
theorem align_self_identity_of_strict_max_witness :
    synchronizeData seqBurstMotion seqBurstMotion 4 =
      (seqBurstMotion, seqBurstMotion) := by
  apply align_self_identity_of_strict_max
  · norm_num [seqBurstMotion]
  · rw [calculateMovement_burst, corrBurst_zero]
    norm_num
  · intro kk hkk hne
    rw [show offsetList (seqBurstMotion.length / 4) = [-1, 0, 1] from rfl]
      at hkk
    rw [calculateMovement_burst]
    fin_cases hkk
    · rw [corrBurst_neg1, corrBurst_zero]
      intro _
      norm_num
    · exact absurd rfl hne
    · rw [corrBurst_one, corrBurst_zero]
      intro _
      norm_num

theorem bestOffset_const : bestOffset [1, 1, 1] [1, 1, 1] 4 1 = -1 := by
  have hs1 : bestStep [1, 1, 1] [1, 1, 1] 4 (0, none) (-1) = (-1, some 1) := by
    dsimp only [bestStep]
    rw [corrConst_neg1]
    norm_num
  have hs2 : bestStep [1, 1, 1] [1, 1, 1] 4 (-1, some 1) 0 = (-1, some 1) := by
    dsimp only [bestStep]
    rw [corrConst_zero]
    norm_num
  have hs3 : bestStep [1, 1, 1] [1, 1, 1] 4 (-1, some 1) 1 = (-1, some 1) := by
    dsimp only [bestStep]
    rw [corrConst_one]
    norm_num
  unfold bestOffset
  rw [show offsetList 1 = [-1, 0, 1] from rfl]
  rw [List.foldl_cons, hs1, List.foldl_cons, hs2, List.foldl_cons, hs3,
    List.foldl_nil]

/-- C1 (counterexample): for the four-frame sequence whose single marker
moves by 1 every frame (motion series [1, 1, 1]) and compareWindow 4,
every offset ties at average product 1, so the scan keeps the first
(most negative) offset -1 and the call drops the leading frame of the
second sequence: `align(seq, seq, 4)` does NOT return offset 0 and the
second output differs from seq.  The claim is therefore false. -/
theorem align_self_drops_frames_counterexample :
    synchronizeData seqConstantMotion seqConstantMotion 4 =
      (seqConstantMotion, [frameX 1, frameX 2, frameX 3]) ∧
    ([frameX 1, frameX 2, frameX 3] : List Frame) ≠ seqConstantMotion := by
  constructor
  · unfold synchronizeData
    rw [if_neg (by norm_num [seqConstantMotion])]
    dsimp only
    rw [calculateMovement_constant]
    rw [show (min (seqConstantMotion.length / 4)
      (seqConstantMotion.length / 4)) = 1 from rfl]
    rw [bestOffset_const]
    rw [if_neg (by norm_num), if_pos (by norm_num)]
    rfl
  · intro h
    have hlen := congrArg List.length h
    simp [seqConstantMotion] at hlen

end Plm
